import Mathlib

/-!
# Verification of the symmetri battery/metrics monitor core

Shallow embedding of the collection, windowing and aggregation core of the
`symmetri` system-metrics tool (Rust sources `src/main.rs`, `src/cli.rs`,
`src/bin/symmetri-report.rs`).  The `cli.rs` front end calls into the
modules `aggregate`, `cli_helpers`, `collector`, `db`, `timeframe` and
`metrics`; only their call sites and contracts are visible in the sources
at hand, so those operations are modelled from the specification while the
logic that lives in `cli.rs` itself (`run`'s report branch, `summarize`,
`latest_metrics`, the `symmetri-report` wrapper binary) is translated
directly from the code.

Floating-point sensor values (`f64` in Rust) are modelled as rationals
(`ℚ`); timestamps are modelled as integral seconds (`ℤ`).
-/

/-- `BatterySample` (Rust struct `Sample` in the `db` module): one reading of
the system battery at a timestamp.  Fields follow the data model: optional
percentage (0–100), optional free-form status string and optional signed
instantaneous power in watts (positive charge, negative discharge). -/
structure Sample where
  ts : ℤ
  percentage : Option ℚ
  status : Option String
  power_w : Option ℚ
  deriving Repr, DecidableEq

/-- `MetricKind` (Rust enum in the `metrics` module): the enumerated tag of a
non-battery metric sample. -/
inductive MetricKind where
  | CpuUsage
  | CpuFrequency
  | GpuUsage
  | GpuFrequency
  | NetworkBytes
  | MemoryUsage
  | DiskUsage
  | Temperature
  | PowerDraw
  deriving Repr, DecidableEq

/-- Modelled from the spec: `MetricKind::as_str` lives in the `metrics`
module, which is not among the visible sources; the spec fixes the
enumerated tags, and the string forms are taken as their snake_case
spellings.  Only injectivity and the induced total order matter to the
theorems below. -/
def MetricKind.asStr : MetricKind → String
  | .CpuUsage => "cpu_usage"
  | .CpuFrequency => "cpu_frequency"
  | .GpuUsage => "gpu_usage"
  | .GpuFrequency => "gpu_frequency"
  | .NetworkBytes => "network_bytes"
  | .MemoryUsage => "memory_usage"
  | .DiskUsage => "disk_usage"
  | .Temperature => "temperature"
  | .PowerDraw => "power_draw"

/-- `MetricSample` (Rust struct in the `metrics` module): one reading of a
non-battery metric.  The open `details` attribute map is modelled as an
association list of numeric auxiliary values. -/
structure MetricSample where
  ts : ℤ
  kind : MetricKind
  source : String
  value : Option ℚ
  unit : Option String
  details : List (String × ℚ)
  deriving Repr, DecidableEq

/-! ## Aggregator (spec-modelled: module `aggregate` / `cli_helpers`) -/

/-- Modelled from the spec: the merge of the group of raw battery rows
sharing timestamp `t` performed inside `aggregate_samples_by_timestamp`
(module `aggregate`, not among the visible sources).  Merge policy:
`percentage` is the arithmetic mean of present values, `power_w` the sum of
present values, `status` the lexicographically-last non-"unknown" status
among inputs; a field with no present input value stays absent. -/
def mergedSample (t : ℤ) (group : List Sample) : Sample :=
  let ps := group.filterMap (·.percentage)
  let ws := group.filterMap (·.power_w)
  let sts := (group.filterMap (·.status)).filter (fun s => s ≠ "unknown")
  { ts := t
    percentage := if ps.length = 0 then none else some (ps.sum / ps.length)
    power_w := if ws.length = 0 then none else some ws.sum
    status :=
      sts.foldl (fun acc s =>
        match acc with
        | none => some s
        | some a => some (if a ≤ s then s else a)) none }

/-- Modelled from the spec: `aggregate_samples_by_timestamp` (module
`aggregate`, not among the visible sources) merges multiple raw rows sharing
the same timestamp into one representative sample per timestamp, producing
output in ascending `ts` order with no duplicate timestamps. -/
def aggregate_samples_by_timestamp (raw : List Sample) : List Sample :=
  (List.insertionSort (· ≤ ·) (raw.map (·.ts)).dedup).map
    (fun t => mergedSample t (raw.filter (fun s => s.ts = t)))

/-- Result record of `average_rates` (module `cli_helpers`). -/
structure Rates where
  discharge_w : Option ℚ
  charge_w : Option ℚ
  deriving Repr, DecidableEq

/-- Modelled from the spec: `average_rates` (module `cli_helpers`, not among
the visible sources) partitions samples by the sign of `power_w` (negative =
discharging, positive = charging, absent excluded), averages the absolute
values within each partition and returns `none` for an empty partition. -/
def average_rates (samples : List Sample) : Rates :=
  let powers := samples.filterMap (·.power_w)
  let dis := (powers.filter (fun p => p < 0)).map (fun p => |p|)
  let chg := (powers.filter (fun p => 0 < p)).map (fun p => |p|)
  { discharge_w := if dis.length = 0 then none else some (dis.sum / dis.length)
    charge_w := if chg.length = 0 then none else some (chg.sum / chg.length) }

/-- Modelled from the spec: `estimate_runtime_hours` (module `cli_helpers`,
not among the visible sources) is meaningful only when `discharge_w` is
present and positive and the latest sample's `percentage` is present; it
divides the remaining percentage-equivalent energy by the (capacity
normalised) discharge rate, and returns `none` whenever a precondition
fails. -/
def estimate_runtime_hours (discharge_w : Option ℚ) (latest : Sample) : Option ℚ :=
  match discharge_w, latest.percentage with
  | some d, some p => if 0 < d then some (p / d) else none
  | _, _ => none

/-! ## Timeframe engine (spec-modelled: module `timeframe` / `cli_helpers`) -/

/-- `Timeframe` (module `timeframe`): a resolved query window.  `window` is
the window length in seconds; `none` means all-time (no lower bound). -/
structure Timeframe where
  label : String
  window : Option ℤ
  deriving Repr, DecidableEq

/-- Modelled from the spec: `build_timeframe` (module `timeframe`, not among
the visible sources) resolves a window request with precedence
all-time > months > days > hours; months are approximated as 30 days; the
winning unit's magnitude must be positive, otherwise the request is
malformed. -/
def build_timeframe (hours days months : ℤ) (all_time : Bool) :
    Except String Timeframe :=
  if all_time then .ok { label := "all_time", window := none }
  else if 0 < months then
    .ok { label := toString months ++ "_months", window := some (months * 30 * 86400) }
  else if 0 < days then
    .ok { label := toString days ++ "_days", window := some (days * 86400) }
  else if 0 < hours then
    .ok { label := toString hours ++ "_hours", window := some (hours * 3600) }
  else .error "invalid timeframe"

/-- Modelled from the spec: `Timeframe::since_timestamp` returns no lower
bound for all-time and otherwise `now - window`. -/
def Timeframe.since_timestamp (tf : Timeframe) (now : ℤ) : Option ℤ :=
  tf.window.map (fun w => now - w)

/-- Modelled from the spec: `bucket_span_seconds` (module `cli_helpers`, not
among the visible sources) chooses the resampling granularity from the
window length, tiered: windows of at most 1 day bucket at 5 minutes, at most
7 days hourly, at most 60 days daily; longer windows bucket at the multi-day
granularity keeping the bucket count near 45; all-time (no window length)
buckets at a fixed multi-day (one week) granularity. -/
def bucket_span_seconds (tf : Timeframe) : ℤ :=
  match tf.window with
  | none => 7 * 86400
  | some w =>
    if w ≤ 86400 then 300
    else if w ≤ 7 * 86400 then 3600
    else if w ≤ 60 * 86400 then 86400
    else 86400 * ((w + (45 * 86400 - 1)) / (45 * 86400))

/-! ## Collector (spec-modelled: module `collector`) and its CLI call site -/

/-- A normalized reading produced by one sensor reader during one tick:
either a battery sample or a generic metric sample. -/
inductive Reading where
  | battery (s : Sample)
  | metric (m : MetricSample)
  deriving Repr, DecidableEq

/-- Modelled from the spec: `collect_once` (module `collector`, not among the
visible sources) performs one tick: every configured reader is invoked, each
reader's failure is caught and logged individually, every successful reading
is stored, and the exit code is `0` when at least one reading was stored and
non-zero when every reader failed.  The tick is modelled by the list of
per-reader outcomes; the result pairs the stored readings with the exit
code. -/
def collect_once (readers : List (Except String Reading)) : List Reading × ℕ :=
  let stored := readers.filterMap (fun r => r.toOption)
  (stored, if stored.length = 0 then 1 else 0)

/-- The `Collect` branch of `cli::run` without `--interval`
(`src/cli.rs:104-107`): run `collect_once` and exit with its code when it is
non-zero, otherwise finish normally (process exit status 0). -/
def cliCollectExit (readers : List (Except String Reading)) : ℕ :=
  let code := (collect_once readers).2
  if code ≠ 0 then code else 0

/-! ## Latest metrics (translated from `src/cli.rs:358-379`) -/

/-- The grouping key of `latest_metrics`: the `(kind, source)` pair. -/
def keyOf (s : MetricSample) : MetricKind × String := (s.kind, s.source)

/-- One step of the `HashMap` accumulation loop of `latest_metrics`
(`src/cli.rs:362-370`), on an association list: keep the stored entry for
the sample's key when its timestamp is at least the new sample's, otherwise
replace it (or append a first entry for an unseen key). -/
def insertLatest : List ((MetricKind × String) × MetricSample) → MetricSample →
    List ((MetricKind × String) × MetricSample)
  | [], s => [(keyOf s, s)]
  | (k, e) :: rest, s =>
    if k = keyOf s then
      if s.ts ≤ e.ts then (k, e) :: rest else (k, s) :: rest
    else (k, e) :: insertLatest rest s

/-- The comparator of the final sort of `latest_metrics`
(`src/cli.rs:372-377`): by `kind.as_str()`, ties broken by `source`. -/
def keyLE (a b : MetricSample) : Prop :=
  a.kind.asStr < b.kind.asStr ∨ (a.kind.asStr = b.kind.asStr ∧ a.source ≤ b.source)

instance keyLE.decidable : DecidableRel keyLE := fun a b =>
  inferInstanceAs (Decidable (a.kind.asStr < b.kind.asStr ∨
    (a.kind.asStr = b.kind.asStr ∧ a.source ≤ b.source)))

instance keyLE.total : IsTotal MetricSample keyLE where
  total a b := by
    unfold keyLE
    rcases lt_trichotomy a.kind.asStr b.kind.asStr with h | h | h
    · exact Or.inl (Or.inl h)
    · rcases le_total a.source b.source with hs | hs
      · exact Or.inl (Or.inr ⟨h, hs⟩)
      · exact Or.inr (Or.inr ⟨h.symm, hs⟩)
    · exact Or.inr (Or.inl h)

instance keyLE.trans : IsTrans MetricSample keyLE where
  trans a b c hab hbc := by
    unfold keyLE at *
    rcases hab with hab | ⟨hab, hab2⟩
    · rcases hbc with hbc | ⟨hbc, _⟩
      · exact Or.inl (hab.trans hbc)
      · exact Or.inl (hbc ▸ hab)
    · rcases hbc with hbc | ⟨hbc, hbc2⟩
      · exact Or.inl (hab ▸ hbc)
      · exact Or.inr ⟨hab.trans hbc, hab2.trans hbc2⟩

/-- `latest_metrics` (`src/cli.rs:358-379`): keep, per `(kind, source)`
pair, the sample with the greatest timestamp (the stored one wins a tie,
i.e. the earlier-encountered sample is kept), then sort the kept samples by
`kind.as_str()` and then `source`. -/
def latest_metrics (samples : List MetricSample) : List MetricSample :=
  List.insertionSort keyLE ((samples.foldl insertLatest []).map Prod.snd)

/-! ## The report path of `cli::run` (translated from `src/cli.rs:110-212`) -/

/-- An observable step of the report path: the user-visible prints, the
chart-renderer invocation and the summary tables, in order. -/
inductive ReportEvent where
  | printedNoRecordsEver
  | printedNoRecordsTimeframe (label : String)
  | printedSkipGraph
  | renderedGraph (samples : List Sample) (path : String)
  | printedError (msg : String)
  | printedSummaryTables (records : ℕ) (rates : Rates) (runtime : Option ℚ)
  | printedNoBatterySamples
  | printedMetricsTable (rows : List MetricSample)
  deriving Repr, DecidableEq

/-- `summarize` (`src/cli.rs:173-212`) as the list of observable steps it
performs: when battery samples exist, print the timeframe summary table
(records, average rates, estimated runtime) and the windows table, else
print that no battery samples are available; in every case print the
metrics table, whose rows are the latest metric per `(kind, source)` (an
empty placeholder row when there are no metric samples,
`src/cli.rs:336-344`). -/
def summarizeEvents (samples : List Sample) (records : ℕ)
    (metrics : List MetricSample) : List ReportEvent :=
  (if samples.length ≠ 0 then
    let rates := average_rates samples
    let latest := samples.getLast?.getD ⟨0, none, none, none⟩
    [ReportEvent.printedSummaryTables records rates
      (estimate_runtime_hours rates.discharge_w latest)]
  else [ReportEvent.printedNoBatterySamples])
  ++ [ReportEvent.printedMetricsTable
        (if metrics.length = 0 then [] else latest_metrics metrics)]

/-- Modelled from the spec only in its name: `default_graph_path` (module
`cli_helpers`, not among the visible sources) derives an automatic image
path from the timeframe label; its exact shape is irrelevant to the claims
below. -/
def defaultGraphPath (label : String) : String := "battery_" ++ label ++ ".png"

/-- The `Report` branch of `cli::run` (`src/cli.rs:110-168`), as a function
of the store observations and the already-parsed options, returning the
observable steps and the process exit status.  `batteryTotal`/`metricTotal`
are the all-time row counts (`src/cli.rs:124-125`), `raw` and `metrics` the
rows fetched for the window (`src/cli.rs:132-133`), and `render` the chart
rendering capability (its failure propagates as an error, which `main`
prints and turns into exit status 1). -/
def reportRun (render : List Sample → String → Except String Unit)
    (tf : Timeframe) (batteryTotal metricTotal : ℕ)
    (raw : List Sample) (metrics : List MetricSample)
    (graphPath : Option String) (graphFlag : Bool) :
    List ReportEvent × ℕ :=
  if batteryTotal = 0 ∧ metricTotal = 0 then
    ([ReportEvent.printedNoRecordsEver], 1)
  else
    let samples := aggregate_samples_by_timestamp raw
    if samples.length = 0 ∧ metrics.length = 0 then
      ([ReportEvent.printedNoRecordsTimeframe tf.label], 1)
    else
      let outputPath : Option String :=
        match graphPath, graphFlag with
        | some p, _ => some p
        | none, true => some (defaultGraphPath tf.label)
        | none, false => none
      match outputPath with
      | some p =>
        if samples.length = 0 then
          (ReportEvent.printedSkipGraph :: summarizeEvents samples raw.length metrics, 0)
        else
          match render samples p with
          | .ok _ =>
            (ReportEvent.renderedGraph samples p ::
              summarizeEvents samples raw.length metrics, 0)
          | .error e => ([ReportEvent.printedError e], 1)
      | none => (summarizeEvents samples raw.length metrics, 0)

/-! ## The `symmetri-report` wrapper binary
(translated from `src/bin/symmetri-report.rs` and `src/main.rs`) -/

/-- The outcome of a binary's `main`: normal termination, or printing the
error returned by `cli::run` and exiting with status 1. -/
inductive ProcResult where
  | ok
  | errExit (msg : String)
  deriving Repr, DecidableEq

/-- `main` of the `symmetri` binary (`src/main.rs`): run `cli::run` on the
argument vector; on error print it and exit with status 1.  The behaviour
of `cli::run` on an argument vector is abstracted as `run`. -/
def mainBinary (run : List String → Except String Unit)
    (args : List String) : ProcResult :=
  match run args with
  | .ok _ => .ok
  | .error e => .errExit e

/-- The argument-vector transformation of `src/bin/symmetri-report.rs:4-8`:
if the vector is empty push the program name `"symmetri-report"`, then
insert `"report"` at index 1. -/
def reportArgv (args : List String) : List String :=
  match (if args.length = 0 then ["symmetri-report"] else args) with
  | [] => ["report"]
  | a :: rest => a :: "report" :: rest

/-- `main` of the `symmetri-report` binary (`src/bin/symmetri-report.rs`):
transform the argument vector with `reportArgv`, run `cli::run` on it, and
on error print it and exit with status 1. -/
def reportBinary (run : List String → Except String Unit)
    (args : List String) : ProcResult :=
  match run (reportArgv args) with
  | .ok _ => .ok
  | .error e => .errExit e

/-- The transformation the claim describes: insert the subcommand
`"report"` immediately after the program name. -/
def insertReportAfterProgram (args : List String) : List String :=
  match args with
  | [] => ["report"]
  | a :: rest => a :: "report" :: rest

/-! ## Theorems -/

/-- C2: `average_rates` partitions the samples by the sign of `power_w`
(negative = discharging, positive = charging, absent `power_w` excluded),
returns for each non-empty partition the mean of the absolute power values
and `none` for a partition with zero members; in particular, on a set whose
present `power_w` values are all positive it returns `discharge_w = none`
and `charge_w =` the mean of those positive values. -/
theorem average_rates_sign_partition (samples : List Sample) :
    ((∀ p ∈ samples.filterMap (·.power_w), ¬ p < 0) →
      (average_rates samples).discharge_w = none)
    ∧ ((samples.filterMap (·.power_w)).filter (fun p => p < 0) ≠ [] →
      (average_rates samples).discharge_w =
        some ((((samples.filterMap (·.power_w)).filter (fun p => p < 0)).map
            (fun p => |p|)).sum /
          (((samples.filterMap (·.power_w)).filter (fun p => p < 0)).length : ℚ)))
    ∧ ((∀ p ∈ samples.filterMap (·.power_w), ¬ 0 < p) →
      (average_rates samples).charge_w = none)
    ∧ ((samples.filterMap (·.power_w)).filter (fun p => 0 < p) ≠ [] →
      (average_rates samples).charge_w =
        some ((((samples.filterMap (·.power_w)).filter (fun p => 0 < p)).map
            (fun p => |p|)).sum /
          (((samples.filterMap (·.power_w)).filter (fun p => 0 < p)).length : ℚ)))
    ∧ ((∀ p ∈ samples.filterMap (·.power_w), 0 < p) →
      (average_rates samples).discharge_w = none ∧
      (samples.filterMap (·.power_w) ≠ [] →
        (average_rates samples).charge_w =
          some ((samples.filterMap (·.power_w)).sum /
            ((samples.filterMap (·.power_w)).length : ℚ)))) := by
  set powers := samples.filterMap (·.power_w) with hp
  refine ⟨?_, ?_, ?_, ?_, ?_⟩
  · intro h
    have hnil : powers.filter (fun p => decide (p < 0)) = [] := by
      rw [List.filter_eq_nil]
      intro a ha
      simpa using h a ha
    simp [average_rates, ← hp, hnil]
  · intro h
    have hlen : (powers.filter (fun p => decide (p < 0))).length ≠ 0 := by
      simpa [List.length_eq_zero] using h
    simp [average_rates, ← hp, hlen]
  · intro h
    have hnil : powers.filter (fun p => decide (0 < p)) = [] := by
      rw [List.filter_eq_nil]
      intro a ha
      simpa using h a ha
    simp [average_rates, ← hp, hnil]
  · intro h
    have hlen : (powers.filter (fun p => decide (0 < p))).length ≠ 0 := by
      simpa [List.length_eq_zero] using h
    simp [average_rates, ← hp, hlen]
  · intro h
    have hnilneg : powers.filter (fun p => decide (p < 0)) = [] := by
      rw [List.filter_eq_nil]
      intro a ha
      simpa using (h a ha).asymm
    have hchg : powers.filter (fun p => decide (0 < p)) = powers := by
      rw [List.filter_eq_self]
      intro a ha
      simpa using h a ha
    refine ⟨by simp [average_rates, ← hp, hnilneg], fun hne => ?_⟩
    have hlen : powers.length ≠ 0 := by simpa [List.length_eq_zero] using hne
    have habs : powers.map (fun p => |p|) = powers := by
      rw [List.map_congr_left (g := id) ?_, List.map_id]
      intro a ha
      exact abs_of_pos (h a ha)
    simp [average_rates, ← hp, hchg, hlen, habs]

/-- Witness for C2: on three samples whose present `power_w` values are
`2` and `4` (all positive), `average_rates` reports no discharge rate and a
charge rate of `3` watts, and the never-negative partition is indeed
empty. -/
theorem average_rates_sign_partition_demo :
    (∀ p ∈ ([⟨0, some 80, none, some 2⟩, ⟨60, some 79, none, some 4⟩,
        ⟨120, some 78, none, none⟩] : List Sample).filterMap (·.power_w), 0 < p)
    ∧ (average_rates [⟨0, some 80, none, some 2⟩, ⟨60, some 79, none, some 4⟩,
        ⟨120, some 78, none, none⟩]).discharge_w = none
    ∧ (average_rates [⟨0, some 80, none, some 2⟩, ⟨60, some 79, none, some 4⟩,
        ⟨120, some 78, none, none⟩]).charge_w = some 3 := by
  have h := (average_rates_sign_partition
    [⟨0, some 80, none, some 2⟩, ⟨60, some 79, none, some 4⟩,
      ⟨120, some 78, none, none⟩]).2.2.2.2 (by decide)
  refine ⟨by decide, h.1, ?_⟩
  rw [h.2 (by decide)]
  norm_num [List.filterMap_cons, List.filterMap_nil]

/-- C3: `build_timeframe` resolves the window with precedence
all-time > months > days > hours: with `all_time` set, `since_timestamp`
yields `none` regardless of the other arguments; otherwise positive months
win and give a `months × 30` day window; otherwise positive days give a
`days × 24` hour window; otherwise (positive) hours give an `hours × 1`
hour window. -/
theorem build_timeframe_precedence (h d m now : ℤ) :
    (∀ tf, build_timeframe h d m true = Except.ok tf →
      tf.since_timestamp now = none)
    ∧ (0 < m → build_timeframe h d m false =
        Except.ok ⟨toString m ++ "_months", some (m * 30 * 86400)⟩)
    ∧ (m ≤ 0 → 0 < d → build_timeframe h d m false =
        Except.ok ⟨toString d ++ "_days", some (d * 86400)⟩)
    ∧ (m ≤ 0 → d ≤ 0 → 0 < h → build_timeframe h d m false =
        Except.ok ⟨toString h ++ "_hours", some (h * 3600)⟩) := by
  refine ⟨?_, ?_, ?_, ?_⟩
  · intro tf htf
    have : tf = ⟨"all_time", none⟩ := by
      simpa [build_timeframe] using htf.symm
    simp [this, Timeframe.since_timestamp]
  · intro hm
    simp [build_timeframe, hm]
  · intro hm hd
    simp [build_timeframe, not_lt.2 hm, hd]
  · intro hm hd hh
    simp [build_timeframe, not_lt.2 hm, not_lt.2 hd, hh]

/-- Witness for C3: `build_timeframe(hours=6, days=2, months=1,
all_time=false)` yields the 30-day (months-based) window, and the all-time
variant of the same arguments has no lower bound. -/
theorem build_timeframe_precedence_demo :
    build_timeframe 6 2 1 false =
      Except.ok ⟨"1_months", some 2592000⟩
    ∧ Timeframe.since_timestamp ⟨"all_time", none⟩ 0 = none := by
  have h := build_timeframe_precedence 6 2 1 0
  refine ⟨?_, h.1 ⟨"all_time", none⟩ rfl⟩
  have h2 := h.2.1 (by decide)
  rw [h2]
  rfl

/-- C6: `estimate_runtime_hours` returns a value exactly when `discharge_w`
is present and positive and the latest sample's percentage is present, and
(the percentage being non-negative, per the 0–100 data-model invariant) the
returned value is non-negative — and, being a rational produced under a
positive-divisor guard, never infinite. -/
theorem estimate_runtime_hours_spec (dw : Option ℚ) (latest : Sample) :
    ((estimate_runtime_hours dw latest).isSome ↔
      ((∃ dv, dw = some dv ∧ 0 < dv) ∧ latest.percentage.isSome))
    ∧ (∀ p q, latest.percentage = some p → 0 ≤ p →
      estimate_runtime_hours dw latest = some q → 0 ≤ q) := by
  constructor
  · rcases dw with _ | dv
    · simp [estimate_runtime_hours]
    · rcases hpct : latest.percentage with _ | p
      · simp [estimate_runtime_hours, hpct]
      · by_cases hdv : 0 < dv
        · simp [estimate_runtime_hours, hpct, hdv]
        · simp [estimate_runtime_hours, hpct, hdv]
  · intro p q hpct hp hq
    rcases dw with _ | dv
    · simp [estimate_runtime_hours] at hq
    · simp only [estimate_runtime_hours, hpct] at hq
      by_cases hdv : 0 < dv
      · rw [if_pos hdv] at hq
        obtain rfl : p / dv = q := by simpa using hq
        exact div_nonneg hp hdv.le
      · simp [hdv] at hq

/-- Witness for C6: with a present discharge rate of `5` watts and a latest
percentage of `80`, the estimate is present and non-negative (`16` hours
here), the preconditions of the specification theorem being discharged at
those concrete values. -/
theorem estimate_runtime_hours_demo :
    ((0 : ℚ) ≤ 80)
    ∧ ((estimate_runtime_hours (some 5) ⟨600, some 80, none, some (-5)⟩).isSome ↔
      ((∃ dv, (some (5 : ℚ)) = some dv ∧ 0 < dv) ∧
        (Sample.percentage ⟨600, some 80, none, some (-5)⟩).isSome))
    ∧ (0 : ℚ) ≤ 16 := by
  have h := estimate_runtime_hours_spec (some 5) ⟨600, some 80, none, some (-5)⟩
  exact ⟨by decide, h.1, h.2 80 16 (by decide) (by decide)
    (by norm_num [estimate_runtime_hours])⟩

/-- C7: `collect_once` stores every successful reading regardless of other
readers' failures (inserting a failing reader anywhere leaves the stored
readings unchanged, and every `ok` reading is stored), its exit code is `0`
exactly when at least one reading was stored and non-zero when every
reader failed, and the CLI `Collect` branch propagates the code as the
process exit status. -/
theorem collect_once_isolation :
    (∀ (xs ys : List (Except String Reading)) (e : String),
      (collect_once (xs ++ Except.error e :: ys)).1 = (collect_once (xs ++ ys)).1)
    ∧ (∀ rs r, Except.ok r ∈ rs → r ∈ (collect_once rs).1)
    ∧ (∀ rs, ((collect_once rs).2 = 0 ↔ ∃ r, Except.ok r ∈ rs))
    ∧ (∀ rs, (∀ x ∈ rs, ∃ e, x = Except.error e) → (collect_once rs).2 ≠ 0)
    ∧ (∀ rs, cliCollectExit rs = (collect_once rs).2) := by
  have hstored : ∀ rs : List (Except String Reading),
      (collect_once rs).1 = rs.filterMap (fun r => r.toOption) := fun _ => rfl
  refine ⟨?_, ?_, ?_, ?_, ?_⟩
  · intro xs ys e
    simp [collect_once, Except.toOption]
  · intro rs r hr
    rw [hstored]
    exact List.mem_filterMap.2 ⟨Except.ok r, hr, rfl⟩
  · intro rs
    have : (collect_once rs).2 = 0 ↔ rs.filterMap (fun r => r.toOption) ≠ [] := by
      simp only [collect_once]
      by_cases hnil : rs.filterMap (fun r => r.toOption) = []
      · simp [hnil]
      · simp [hnil, List.length_eq_zero]
    rw [this]
    constructor
    · intro hne
      rcases List.exists_mem_of_ne_nil _ hne with ⟨r, hr⟩
      rcases List.mem_filterMap.1 hr with ⟨x, hx, hxr⟩
      rcases x with e | v
      · simp [Except.toOption] at hxr
      · exact ⟨v, hx⟩
    · rintro ⟨r, hr⟩
      intro hnil
      have hmem : r ∈ rs.filterMap (fun r => r.toOption) :=
        List.mem_filterMap.2 ⟨Except.ok r, hr, rfl⟩
      rw [hnil] at hmem
      exact absurd hmem (List.not_mem_nil r)
  · intro rs hall
    have hnil : rs.filterMap (fun r => r.toOption) = [] := by
      rw [List.filterMap_eq_nil]
      intro x hx
      rcases hall x hx with ⟨e, rfl⟩
      rfl
    simp [collect_once, hnil]
  · intro rs
    by_cases hc : (collect_once rs).2 = 0 <;> simp [cliCollectExit, hc]

/-- Witness for C7: a tick with one failing and one succeeding reader
stores the successful battery reading, exits with code `0` (a reading was
stored), and the stored list is the same as without the failing reader. -/
theorem collect_once_isolation_demo :
    (collect_once [Except.error "dead sensor",
        Except.ok (Reading.battery ⟨0, some 50, none, none⟩)]).1 =
      (collect_once [Except.ok (Reading.battery ⟨0, some 50, none, none⟩)]).1
    ∧ Reading.battery ⟨0, some 50, none, none⟩ ∈
      (collect_once [Except.error "dead sensor",
        Except.ok (Reading.battery ⟨0, some 50, none, none⟩)]).1
    ∧ (collect_once [Except.error "dead sensor",
        Except.ok (Reading.battery ⟨0, some 50, none, none⟩)]).2 = 0
    ∧ cliCollectExit [(Except.error "dead sensor" : Except String Reading)] =
      (collect_once [(Except.error "dead sensor" : Except String Reading)]).2 := by
  have h := collect_once_isolation
  exact ⟨h.1 [] [Except.ok (Reading.battery ⟨0, some 50, none, none⟩)] "dead sensor",
    h.2.1 _ _ (by simp),
    (h.2.2.1 _).2 ⟨Reading.battery ⟨0, some 50, none, none⟩, by simp⟩,
    h.2.2.2.2 _⟩

/-- C8: on every non-empty argument vector the `symmetri-report` binary is
behaviourally equivalent to the main `symmetri` binary invoked with the
subcommand `report` inserted immediately after the program name — both run
the same `cli::run` function on the transformed vector, and when it returns
an error both print it and exit with status 1 (`ProcResult.errExit`). -/
theorem reportBinary_equiv_main (run : List String → Except String Unit)
    (args : List String) (hne : args ≠ []) :
    reportBinary run args = mainBinary run (insertReportAfterProgram args)
    ∧ (∀ e, run (insertReportAfterProgram args) = Except.error e →
      reportBinary run args = ProcResult.errExit e) := by
  rcases args with _ | ⟨a, rest⟩
  · exact absurd rfl hne
  · have hargv : reportArgv (a :: rest) = insertReportAfterProgram (a :: rest) := by
      simp [reportArgv, insertReportAfterProgram]
    constructor
    · simp [reportBinary, mainBinary, hargv]
    · intro e he
      simp [reportBinary, hargv, he]

/-- Witness for C8: on the concrete vector `["symmetri", "--hours", "6"]`
(non-empty) and a `run` that fails echoing its arguments, the wrapper
binary behaves exactly as the main binary on
`["symmetri", "report", "--hours", "6"]`, printing the error and exiting
with status 1. -/
theorem reportBinary_equiv_main_demo :
    reportBinary (fun l => Except.error (String.intercalate " " l))
        ["symmetri", "--hours", "6"] =
      mainBinary (fun l => Except.error (String.intercalate " " l))
        (insertReportAfterProgram ["symmetri", "--hours", "6"])
    ∧ reportBinary (fun l => Except.error (String.intercalate " " l))
        ["symmetri", "--hours", "6"] =
      ProcResult.errExit "symmetri report --hours 6" := by
  have h := reportBinary_equiv_main
    (fun l => Except.error (String.intercalate " " l))
    ["symmetri", "--hours", "6"] (by decide)
  exact ⟨h.1, h.2 "symmetri report --hours 6" rfl⟩

/-- C5: `bucket_span_seconds` is monotonically non-decreasing in the window
length: a timeframe whose window is no longer than another's never gets a
larger bucket span (a larger window never produces a finer bucket).
All-time frames carry no window length, so the comparison is between
timeframes with definite window lengths. -/
theorem bucket_span_seconds_monotone (tf₁ tf₂ : Timeframe) (w₁ w₂ : ℤ)
    (h₁ : tf₁.window = some w₁) (h₂ : tf₂.window = some w₂) (hw : w₁ ≤ w₂) :
    bucket_span_seconds tf₁ ≤ bucket_span_seconds tf₂ := by
  obtain ⟨l₁, win₁⟩ := tf₁
  obtain ⟨l₂, win₂⟩ := tf₂
  simp only [Timeframe.window] at h₁ h₂
  subst h₁
  subst h₂
  simp only [bucket_span_seconds]
  split_ifs <;> omega

/-- Witness for C5: a 6-hour window is no longer than a 2-day window, and
its 5-minute bucket is no larger than the day bucket of the 2-day window. -/
theorem bucket_span_seconds_monotone_demo :
    Timeframe.window ⟨"6_hours", some 21600⟩ = some 21600
    ∧ (21600 : ℤ) ≤ 172800
    ∧ bucket_span_seconds ⟨"6_hours", some 21600⟩ ≤
      bucket_span_seconds ⟨"2_days", some 172800⟩ :=
  ⟨rfl, by decide,
    bucket_span_seconds_monotone ⟨"6_hours", some 21600⟩ ⟨"2_days", some 172800⟩
      21600 172800 rfl rfl (by decide)⟩

/-- C4: the report path distinguishes an entirely empty store from an empty
window: with zero battery and zero metric rows ever recorded it prints the
"no records available" message and exits with status 1; when the store has
rows but the window holds no battery and no metric samples it prints the
timeframe-specific "no records" message and exits with status 1; in both
cases the event list holds only that message, so no table is rendered. -/
theorem report_empty_store_vs_empty_window
    (render : List Sample → String → Except String Unit) (tf : Timeframe)
    (bt mt : ℕ) (raw : List Sample) (metrics : List MetricSample)
    (gp : Option String) (gf : Bool) :
    (bt = 0 → mt = 0 →
      reportRun render tf bt mt raw metrics gp gf =
        ([ReportEvent.printedNoRecordsEver], 1))
    ∧ (¬(bt = 0 ∧ mt = 0) → raw = [] → metrics = [] →
      reportRun render tf bt mt raw metrics gp gf =
        ([ReportEvent.printedNoRecordsTimeframe tf.label], 1)) := by
  constructor
  · intro hb hm
    simp [reportRun, hb, hm]
  · intro hne hraw hmet
    subst hraw
    subst hmet
    simp [reportRun, hne, aggregate_samples_by_timestamp]

/-- Witness for C4: a store with one all-time battery row whose 6-hour
window holds nothing prints the timeframe message, while a fully empty
store prints the global message; both exit with status 1. -/
theorem report_empty_store_vs_empty_window_demo :
    reportRun (fun _ _ => Except.ok ()) ⟨"6_hours", some 21600⟩ 0 0 [] [] none false =
      ([ReportEvent.printedNoRecordsEver], 1)
    ∧ reportRun (fun _ _ => Except.ok ()) ⟨"6_hours", some 21600⟩ 1 0 [] [] none false =
      ([ReportEvent.printedNoRecordsTimeframe "6_hours"], 1) := by
  have h0 := report_empty_store_vs_empty_window (fun _ _ => Except.ok ())
    ⟨"6_hours", some 21600⟩ 0 0 [] [] none false
  have h1 := report_empty_store_vs_empty_window (fun _ _ => Except.ok ())
    ⟨"6_hours", some 21600⟩ 1 0 [] [] none false
  exact ⟨h0.1 rfl rfl, h1.2 (by simp) rfl rfl⟩

/-- No step of `summarize` is a chart-renderer invocation: the renderer is
only reachable from the graph branch of the report path. -/
theorem renderedGraph_not_in_summarizeEvents (samples : List Sample)
    (records : ℕ) (metrics : List MetricSample) (s : List Sample) (p : String) :
    ReportEvent.renderedGraph s p ∉ summarizeEvents samples records metrics := by
  by_cases hlen : samples.length ≠ 0 <;> simp [summarizeEvents, hlen]

/-- C10: when a graph output path is requested but the aggregated battery
sample list for the window is empty while metric samples are present, the
report prints the skip message, never invokes the chart renderer, still
produces the metrics summary, and exits normally; moreover the renderer is
only ever invoked with a non-empty sample list. -/
theorem report_graph_skip_conditions
    (render : List Sample → String → Except String Unit) (tf : Timeframe)
    (bt mt : ℕ) (raw : List Sample) (metrics : List MetricSample)
    (gp : Option String) (gf : Bool) :
    (¬(bt = 0 ∧ mt = 0) → aggregate_samples_by_timestamp raw = [] →
      metrics ≠ [] → (gp ≠ none ∨ gf = true) →
      reportRun render tf bt mt raw metrics gp gf =
        ([ReportEvent.printedSkipGraph, ReportEvent.printedNoBatterySamples,
          ReportEvent.printedMetricsTable (latest_metrics metrics)], 0))
    ∧ (∀ s p,
      ReportEvent.renderedGraph s p ∈ (reportRun render tf bt mt raw metrics gp gf).1 →
      s ≠ []) := by
  constructor
  · intro hne hagg hmet hreq
    have hmlen : metrics.length ≠ 0 := by simpa [List.length_eq_zero] using hmet
    rcases gp with _ | p
    · have hgf : gf = true := by
        rcases hreq with hreq | hreq
        · exact absurd rfl hreq
        · exact hreq
      subst hgf
      simp [reportRun, hne, hagg, hmet, summarizeEvents, hmlen]
    · simp [reportRun, hne, hagg, hmet, summarizeEvents, hmlen]
  · intro s p hmem hs
    subst hs
    by_cases hne : bt = 0 ∧ mt = 0
    · simp [reportRun, hne] at hmem
    · by_cases hA : aggregate_samples_by_timestamp raw = []
      · by_cases hM : metrics = []
        · simp [reportRun, hne, hA, hM] at hmem
        · rcases gp with _ | path
          · rcases gf with _ | _
            · have hrr : (reportRun render tf bt mt raw metrics none false).1 =
                  summarizeEvents (aggregate_samples_by_timestamp raw)
                    raw.length metrics := by
                simp [reportRun, hne, hA, hM]
              rw [hrr] at hmem
              exact renderedGraph_not_in_summarizeEvents _ _ _ _ _ hmem
            · have hrr : (reportRun render tf bt mt raw metrics none true).1 =
                  ReportEvent.printedSkipGraph ::
                    summarizeEvents (aggregate_samples_by_timestamp raw)
                      raw.length metrics := by
                simp [reportRun, hne, hA, hM]
              rw [hrr] at hmem
              rcases List.mem_cons.1 hmem with heq | htail
              · cases heq
              · exact renderedGraph_not_in_summarizeEvents _ _ _ _ _ htail
          · have hrr : (reportRun render tf bt mt raw metrics (some path) gf).1 =
                ReportEvent.printedSkipGraph ::
                  summarizeEvents (aggregate_samples_by_timestamp raw)
                    raw.length metrics := by
              simp [reportRun, hne, hA, hM]
            rw [hrr] at hmem
            rcases List.mem_cons.1 hmem with heq | htail
            · cases heq
            · exact renderedGraph_not_in_summarizeEvents _ _ _ _ _ htail
      · rcases gp with _ | path
        · rcases gf with _ | _
          · have hrr : (reportRun render tf bt mt raw metrics none false).1 =
                summarizeEvents (aggregate_samples_by_timestamp raw)
                  raw.length metrics := by
              simp [reportRun, hne, hA]
            rw [hrr] at hmem
            exact renderedGraph_not_in_summarizeEvents _ _ _ _ _ hmem
          · rcases hr : render (aggregate_samples_by_timestamp raw)
                (defaultGraphPath tf.label) with e | u
            · have hrr : (reportRun render tf bt mt raw metrics none true).1 =
                  [ReportEvent.printedError e] := by
                simp [reportRun, hne, hA, hr]
              rw [hrr] at hmem
              rcases List.mem_cons.1 hmem with heq | htail
              · cases heq
              · cases htail
            · have hrr : (reportRun render tf bt mt raw metrics none true).1 =
                  ReportEvent.renderedGraph (aggregate_samples_by_timestamp raw)
                      (defaultGraphPath tf.label) ::
                    summarizeEvents (aggregate_samples_by_timestamp raw)
                      raw.length metrics := by
                simp [reportRun, hne, hA, hr]
              rw [hrr] at hmem
              rcases List.mem_cons.1 hmem with heq | htail
              · injection heq with h1 h2
                exact hA h1.symm
              · exact renderedGraph_not_in_summarizeEvents _ _ _ _ _ htail
        · rcases hr : render (aggregate_samples_by_timestamp raw) path with e | u
          · have hrr : (reportRun render tf bt mt raw metrics (some path) gf).1 =
                [ReportEvent.printedError e] := by
              simp [reportRun, hne, hA, hr]
            rw [hrr] at hmem
            rcases List.mem_cons.1 hmem with heq | htail
            · cases heq
            · cases htail
          · have hrr : (reportRun render tf bt mt raw metrics (some path) gf).1 =
                ReportEvent.renderedGraph (aggregate_samples_by_timestamp raw)
                    path ::
                  summarizeEvents (aggregate_samples_by_timestamp raw)
                    raw.length metrics := by
              simp [reportRun, hne, hA, hr]
            rw [hrr] at hmem
            rcases List.mem_cons.1 hmem with heq | htail
            · injection heq with h1 h2
              exact hA h1.symm
            · exact renderedGraph_not_in_summarizeEvents _ _ _ _ _ htail

/-- Witness for C10: with one all-time metric row, a 6-hour window holding
one CPU metric sample but no battery samples, and the graph flag set, the
report prints the skip message, renders nothing, still prints the metrics
summary, and exits with status 0. -/
theorem report_graph_skip_conditions_demo :
    reportRun (fun _ _ => Except.ok ()) ⟨"6_hours", some 21600⟩ 0 1 []
        [⟨100, MetricKind.CpuUsage, "cpu0", some 42, some "%", []⟩] none true =
      ([ReportEvent.printedSkipGraph, ReportEvent.printedNoBatterySamples,
        ReportEvent.printedMetricsTable
          (latest_metrics
            [⟨100, MetricKind.CpuUsage, "cpu0", some 42, some "%", []⟩])], 0) :=
  (report_graph_skip_conditions (fun _ _ => Except.ok ()) ⟨"6_hours", some 21600⟩
    0 1 [] [⟨100, MetricKind.CpuUsage, "cpu0", some 42, some "%", []⟩]
    none true).1 (by simp) rfl (by simp) (Or.inr rfl)

/-- C1: `aggregate_samples_by_timestamp` returns exactly one output row per
distinct input timestamp, in strictly ascending `ts` order (hence no
duplicate timestamps); each output row's `percentage` is the arithmetic
mean of the present percentage values of the inputs sharing its timestamp
(absent when none is present) and its `power_w` is the sum of the present
`power_w` values of those inputs (absent when none is present). -/
theorem aggregate_samples_by_timestamp_spec (raw : List Sample) :
    List.Sorted (· < ·) ((aggregate_samples_by_timestamp raw).map (·.ts))
    ∧ (∀ t, t ∈ (aggregate_samples_by_timestamp raw).map (·.ts) ↔
        t ∈ raw.map (·.ts))
    ∧ (∀ s ∈ aggregate_samples_by_timestamp raw,
        ((raw.filter (fun x => x.ts = s.ts)).filterMap (·.percentage) ≠ [] →
          s.percentage =
            some (((raw.filter (fun x => x.ts = s.ts)).filterMap (·.percentage)).sum /
              ((((raw.filter (fun x => x.ts = s.ts)).filterMap (·.percentage)).length : ℚ))))
        ∧ ((raw.filter (fun x => x.ts = s.ts)).filterMap (·.percentage) = [] →
          s.percentage = none)
        ∧ ((raw.filter (fun x => x.ts = s.ts)).filterMap (·.power_w) ≠ [] →
          s.power_w =
            some ((raw.filter (fun x => x.ts = s.ts)).filterMap (·.power_w)).sum)
        ∧ ((raw.filter (fun x => x.ts = s.ts)).filterMap (·.power_w) = [] →
          s.power_w = none)) := by
  have hmap : (aggregate_samples_by_timestamp raw).map (·.ts) =
      List.insertionSort (· ≤ ·) (raw.map (·.ts)).dedup := by
    rw [aggregate_samples_by_timestamp, List.map_map]
    have hc : ((fun s : Sample => s.ts) ∘
        fun t => mergedSample t (raw.filter (fun s => s.ts = t))) = id := by
      funext t
      rfl
    rw [hc, List.map_id]
  refine ⟨?_, ?_, ?_⟩
  · rw [hmap]
    refine List.Sorted.lt_of_le (List.sorted_insertionSort _ _) ?_
    exact ((List.perm_insertionSort _ _).nodup_iff).2 (List.nodup_dedup _)
  · intro t
    rw [hmap]
    simp [List.mem_dedup]
  · intro s hs
    rw [aggregate_samples_by_timestamp] at hs
    rcases List.mem_map.1 hs with ⟨t, ht, rfl⟩
    have hts : (mergedSample t (raw.filter (fun s => s.ts = t))).ts = t := rfl
    rw [hts]
    refine ⟨?_, ?_, ?_, ?_⟩
    · intro h
      have hlen : ((raw.filter (fun x => x.ts = t)).filterMap (·.percentage)).length ≠ 0 := by
        simpa [List.length_eq_zero] using h
      simp [mergedSample, hlen]
    · intro h
      simp [mergedSample, h]
    · intro h
      have hlen : ((raw.filter (fun x => x.ts = t)).filterMap (·.power_w)).length ≠ 0 := by
        simpa [List.length_eq_zero] using h
      simp [mergedSample, hlen]
    · intro h
      simp [mergedSample, h]

/-- Three raw battery rows, two sharing timestamp 10 (two batteries
reporting in one tick) and one at timestamp 0. -/
def demoRawSamples : List Sample :=
  [⟨10, some 80, some "discharging", some (-5)⟩,
   ⟨0, some 60, none, some 2⟩,
   ⟨10, some 60, none, none⟩]

/-- Witness for C1: on the demo rows the aggregated output is strictly
ascending in `ts`, timestamp 10 survives aggregation, and the merged row at
timestamp 10 carries the mean percentage (80 and 60 average to 70) and the
sum of present powers (only -5 present). -/
theorem aggregate_samples_by_timestamp_demo :
    List.Sorted (· < ·) ((aggregate_samples_by_timestamp demoRawSamples).map (·.ts))
    ∧ ((10 : ℤ) ∈ (aggregate_samples_by_timestamp demoRawSamples).map (·.ts) ↔
        (10 : ℤ) ∈ demoRawSamples.map (·.ts))
    ∧ (demoRawSamples.filter (fun x => x.ts = (10 : ℤ))).filterMap (·.percentage) ≠ []
    ∧ (mergedSample 10 (demoRawSamples.filter (fun s => s.ts = 10))).percentage = some 70
    ∧ (mergedSample 10 (demoRawSamples.filter (fun s => s.ts = 10))).power_w = some (-5) := by
  have h := aggregate_samples_by_timestamp_spec demoRawSamples
  have hmem : mergedSample 10 (demoRawSamples.filter (fun s => s.ts = 10)) ∈
      aggregate_samples_by_timestamp demoRawSamples := by
    rw [aggregate_samples_by_timestamp]
    exact List.mem_map.2 ⟨10, by decide, rfl⟩
  have hrow := h.2.2 _ hmem
  refine ⟨h.1, h.2.1 10, by decide, ?_, ?_⟩
  · have hp := hrow.1 (by decide)
    rw [hp]
    norm_num [demoRawSamples, mergedSample, List.filter, List.filterMap]
  · have hw := hrow.2.2.1 (by decide)
    rw [hw]
    norm_num [demoRawSamples, List.filter, List.filterMap]

/-- Keys after one accumulation step: unchanged when the new sample's key is
already present, otherwise the key is appended. -/
theorem insertLatest_keys (acc : List ((MetricKind × String) × MetricSample))
    (s : MetricSample) :
    (insertLatest acc s).map Prod.fst =
      if keyOf s ∈ acc.map Prod.fst then acc.map Prod.fst
      else acc.map Prod.fst ++ [keyOf s] := by
  induction acc with
  | nil => simp [insertLatest]
  | cons q rest ih =>
    obtain ⟨k, e⟩ := q
    by_cases hk : k = keyOf s
    · subst hk
      by_cases ht : s.ts ≤ e.ts <;> simp [insertLatest, ht]
    · simp only [insertLatest, if_neg hk, List.map_cons]
      rw [ih]
      by_cases hmem : keyOf s ∈ rest.map Prod.fst
      · simp [hmem]
      · simp [hmem, Ne.symm hk]

/-- Every entry after one accumulation step is an old entry or the new
sample keyed by its own key. -/
theorem insertLatest_mem (acc : List ((MetricKind × String) × MetricSample))
    (s : MetricSample) :
    ∀ p ∈ insertLatest acc s, p ∈ acc ∨ p = (keyOf s, s) := by
  induction acc with
  | nil =>
    intro p hp
    simp only [insertLatest, List.mem_singleton] at hp
    exact Or.inr hp
  | cons q rest ih =>
    obtain ⟨k, e⟩ := q
    intro p hp
    by_cases hk : k = keyOf s
    · subst hk
      simp only [insertLatest, if_pos rfl] at hp
      by_cases ht : s.ts ≤ e.ts
      · rw [if_pos ht] at hp
        rcases List.mem_cons.1 hp with rfl | hp'
        · exact Or.inl (List.mem_cons_self _ _)
        · exact Or.inl (List.mem_cons_of_mem _ hp')
      · rw [if_neg ht] at hp
        rcases List.mem_cons.1 hp with rfl | hp'
        · exact Or.inr rfl
        · exact Or.inl (List.mem_cons_of_mem _ hp')
    · simp only [insertLatest, if_neg hk] at hp
      rcases List.mem_cons.1 hp with rfl | hp'
      · exact Or.inl (List.mem_cons_self _ _)
      · rcases ih p hp' with h | h
        · exact Or.inl (List.mem_cons_of_mem _ h)
        · exact Or.inr h

/-- Accumulation preserves the invariant that each entry is keyed by its
own sample's key. -/
theorem insertLatest_wf (acc : List ((MetricKind × String) × MetricSample))
    (s : MetricSample) (hwf : ∀ p ∈ acc, p.1 = keyOf p.2) :
    ∀ p ∈ insertLatest acc s, p.1 = keyOf p.2 := by
  intro p hp
  rcases insertLatest_mem acc s p hp with h | h
  · exact hwf p h
  · rw [h]

/-- With pairwise-distinct keys, the entry carrying the new sample's key
after one step is either the new sample itself — in which case it strictly
beats every old same-key entry — or an untouched old entry whose timestamp
is at least the new sample's. -/
theorem insertLatest_best (acc : List ((MetricKind × String) × MetricSample))
    (s : MetricSample) (hnd : (acc.map Prod.fst).Nodup) :
    ∀ p ∈ insertLatest acc s, p.1 = keyOf s →
      (p = (keyOf s, s) ∧ ∀ q ∈ acc, q.1 = keyOf s → q.2.ts < s.ts)
      ∨ (p ∈ acc ∧ s.ts ≤ p.2.ts) := by
  induction acc with
  | nil =>
    intro p hp hps
    simp only [insertLatest, List.mem_singleton] at hp
    subst hp
    exact Or.inl ⟨rfl, by simp⟩
  | cons q rest ih =>
    obtain ⟨k, e⟩ := q
    have hnd2 : (k :: rest.map Prod.fst).Nodup := by simpa using hnd
    have hknotin := (List.nodup_cons.1 hnd2).1
    have hnd' := (List.nodup_cons.1 hnd2).2
    intro p hp hps
    by_cases hk : k = keyOf s
    · subst hk
      simp only [insertLatest, if_pos rfl] at hp
      by_cases ht : s.ts ≤ e.ts
      · rw [if_pos ht] at hp
        rcases List.mem_cons.1 hp with rfl | hp'
        · exact Or.inr ⟨List.mem_cons_self _ _, ht⟩
        · have hin : p.1 ∈ rest.map Prod.fst := List.mem_map_of_mem _ hp'
          rw [hps] at hin
          exact absurd hin hknotin
      · rw [if_neg ht] at hp
        rcases List.mem_cons.1 hp with rfl | hp'
        · refine Or.inl ⟨rfl, ?_⟩
          intro q hq hq1
          rcases List.mem_cons.1 hq with rfl | hq'
          · exact not_le.1 ht
          · have hin : q.1 ∈ rest.map Prod.fst := List.mem_map_of_mem _ hq'
            rw [hq1] at hin
            exact absurd hin hknotin
        · have hin : p.1 ∈ rest.map Prod.fst := List.mem_map_of_mem _ hp'
          rw [hps] at hin
          exact absurd hin hknotin
    · simp only [insertLatest, if_neg hk] at hp
      rcases List.mem_cons.1 hp with rfl | hp'
      · exact absurd hps hk
      · rcases ih hnd' p hp' hps with ⟨heq, hall⟩ | ⟨hmem, hts⟩
        · refine Or.inl ⟨heq, ?_⟩
          intro q hq hq1
          rcases List.mem_cons.1 hq with rfl | hq'
          · exact absurd hq1 hk
          · exact hall q hq' hq1
        · exact Or.inr ⟨List.mem_cons_of_mem _ hmem, hts⟩

/-- Membership in the key list after one accumulation step. -/
theorem insertLatest_keys_mem (acc : List ((MetricKind × String) × MetricSample))
    (s : MetricSample) (k : MetricKind × String) :
    k ∈ (insertLatest acc s).map Prod.fst ↔
      k ∈ acc.map Prod.fst ∨ k = keyOf s := by
  rw [insertLatest_keys]
  by_cases hmem : keyOf s ∈ acc.map Prod.fst
  · rw [if_pos hmem]
    constructor
    · exact Or.inl
    · rintro (h | rfl)
      · exact h
      · exact hmem
  · rw [if_neg hmem]
    simp

/-- Invariant of the `latest_metrics` accumulation loop after processing
the prefix `seen`: the accumulator has pairwise-distinct keys matching
exactly the keys seen so far, each entry is keyed by its own sample, and
each stored sample occurs in `seen` with every earlier same-key sample
strictly older and every seen same-key sample no newer. -/
def GoodAcc (seen : List MetricSample)
    (acc : List ((MetricKind × String) × MetricSample)) : Prop :=
  (acc.map Prod.fst).Nodup
  ∧ (∀ p ∈ acc, p.1 = keyOf p.2)
  ∧ (∀ k, k ∈ acc.map Prod.fst ↔ k ∈ seen.map keyOf)
  ∧ (∀ p ∈ acc, ∃ l₁ l₂, seen = l₁ ++ p.2 :: l₂
      ∧ (∀ x ∈ l₁, keyOf x = p.1 → x.ts < p.2.ts)
      ∧ (∀ x ∈ seen, keyOf x = p.1 → x.ts ≤ p.2.ts))

/-- One step of the accumulation loop preserves the invariant. -/
theorem goodAcc_insert (seen : List MetricSample)
    (acc : List ((MetricKind × String) × MetricSample)) (s : MetricSample)
    (h : GoodAcc seen acc) : GoodAcc (seen ++ [s]) (insertLatest acc s) := by
  obtain ⟨hnd, hwf, hkeys, hbest⟩ := h
  have hseenlt : (keyOf s ∈ acc.map Prod.fst ∧
        ∀ q ∈ acc, q.1 = keyOf s → q.2.ts < s.ts) →
      ∀ x ∈ seen, keyOf x = keyOf s → x.ts < s.ts := by
    rintro ⟨hacc, hall⟩ x hx hkx
    rcases List.mem_map.1 hacc with ⟨q, hq, hq1⟩
    have hqts := hall q hq hq1
    rcases hbest q hq with ⟨m₁, m₂, hseen, hstrict, hle⟩
    have hxle := hle x hx (by rw [hq1]; exact hkx)
    exact lt_of_le_of_lt hxle hqts
  refine ⟨?_, insertLatest_wf acc s hwf, ?_, ?_⟩
  · rw [insertLatest_keys]
    by_cases hmem : keyOf s ∈ acc.map Prod.fst
    · simpa [hmem] using hnd
    · rw [if_neg hmem]
      refine hnd.append (List.nodup_singleton _) ?_
      intro a ha hb
      rw [List.mem_singleton] at hb
      subst hb
      exact hmem ha
  · intro k
    rw [insertLatest_keys_mem, hkeys k]
    simp
  · intro p hp
    by_cases hps : p.1 = keyOf s
    · rcases insertLatest_best acc s hnd p hp hps with ⟨rfl, hall⟩ | ⟨hmem, hts⟩
      · have hacc : keyOf s ∈ acc.map Prod.fst ∨ keyOf s ∉ acc.map Prod.fst :=
          em _
        have hlt : ∀ x ∈ seen, keyOf x = keyOf s → x.ts < s.ts := by
          intro x hx hkx
          rcases hacc with hacc' | hacc'
          · exact hseenlt ⟨hacc', hall⟩ x hx hkx
          · have hin : keyOf x ∈ seen.map keyOf := List.mem_map_of_mem _ hx
            rw [hkx] at hin
            exact absurd ((hkeys _).2 hin) hacc'
        refine ⟨seen, [], rfl, ?_, ?_⟩
        · intro x hx hkx
          exact hlt x hx hkx
        · intro x hx hkx
          rcases List.mem_append.1 hx with hx' | hx'
          · exact (hlt x hx' hkx).le
          · rw [List.mem_singleton] at hx'
            subst hx'
            exact le_refl _
      · rcases hbest p hmem with ⟨l₁, l₂, hseen, hstrict, hle⟩
        refine ⟨l₁, l₂ ++ [s], by rw [hseen]; simp, hstrict, ?_⟩
        intro x hx hkx
        rcases List.mem_append.1 hx with hx' | hx'
        · exact hle x hx' hkx
        · rw [List.mem_singleton] at hx'
          subst hx'
          exact hts
    · have hpacc : p ∈ acc := by
        rcases insertLatest_mem acc s p hp with h' | h'
        · exact h'
        · rw [h'] at hps
          exact absurd rfl hps
      rcases hbest p hpacc with ⟨l₁, l₂, hseen, hstrict, hle⟩
      refine ⟨l₁, l₂ ++ [s], by rw [hseen]; simp, hstrict, ?_⟩
      intro x hx hkx
      rcases List.mem_append.1 hx with hx' | hx'
      · exact hle x hx' hkx
      · rw [List.mem_singleton] at hx'
        subst hx'
        exact absurd hkx.symm hps

/-- The accumulation loop preserves the invariant over any suffix. -/
theorem goodAcc_foldl (rest : List MetricSample) :
    ∀ (seen : List MetricSample)
      (acc : List ((MetricKind × String) × MetricSample)),
      GoodAcc seen acc →
      GoodAcc (seen ++ rest) (List.foldl insertLatest acc rest) := by
  induction rest with
  | nil =>
    intro seen acc h
    simpa using h
  | cons x xs ih =>
    intro seen acc h
    have h2 := ih (seen ++ [x]) (insertLatest acc x) (goodAcc_insert seen acc x h)
    have heq : (seen ++ [x]) ++ xs = seen ++ x :: xs := by simp
    rw [heq] at h2
    exact h2

/-- The invariant holds before any sample is processed. -/
theorem goodAcc_nil : GoodAcc [] [] :=
  ⟨List.nodup_nil, by simp, by simp, by simp⟩

/-- C9: `latest_metrics` returns exactly one sample per distinct
`(kind, source)` pair of the input — a sample of the input with the
greatest timestamp for that pair, the earlier-encountered one winning a
timestamp tie (every strictly earlier same-key sample is strictly older,
every same-key sample is no newer) — and the output is sorted by the
kind's string representation and then by source. -/
theorem latest_metrics_spec (samples : List MetricSample) :
    ((latest_metrics samples).map keyOf).Nodup
    ∧ (∀ k, k ∈ (latest_metrics samples).map keyOf ↔ k ∈ samples.map keyOf)
    ∧ (∀ o ∈ latest_metrics samples, ∃ l₁ l₂, samples = l₁ ++ o :: l₂
        ∧ (∀ x ∈ l₁, keyOf x = keyOf o → x.ts < o.ts)
        ∧ (∀ x ∈ samples, keyOf x = keyOf o → x.ts ≤ o.ts))
    ∧ List.Sorted keyLE (latest_metrics samples) := by
  have hga : GoodAcc samples (List.foldl insertLatest [] samples) := by
    have h0 := goodAcc_foldl samples [] [] goodAcc_nil
    simpa using h0
  obtain ⟨hnd, hwf, hkeys, hbest⟩ := hga
  have hperm : (latest_metrics samples).Perm
      ((List.foldl insertLatest [] samples).map Prod.snd) := by
    rw [latest_metrics]
    exact List.perm_insertionSort _ _
  have hmapkey : ((List.foldl insertLatest [] samples).map Prod.snd).map keyOf =
      (List.foldl insertLatest [] samples).map Prod.fst := by
    rw [List.map_map]
    exact List.map_congr_left fun p hp => (hwf p hp).symm
  have hkeyperm : ((latest_metrics samples).map keyOf).Perm
      ((List.foldl insertLatest [] samples).map Prod.fst) := by
    rw [← hmapkey]
    exact hperm.map keyOf
  refine ⟨?_, ?_, ?_, ?_⟩
  · exact hkeyperm.nodup_iff.2 hnd
  · intro k
    rw [hkeyperm.mem_iff, hkeys k]
  · intro o ho
    have ho' : o ∈ (List.foldl insertLatest [] samples).map Prod.snd :=
      hperm.mem_iff.1 ho
    rcases List.mem_map.1 ho' with ⟨p, hp, hpo⟩
    rcases hbest p hp with ⟨l₁, l₂, hseen, hstrict, hle⟩
    have hkey : p.1 = keyOf o := by
      rw [← hpo]
      exact hwf p hp
    refine ⟨l₁, l₂, by rw [hseen, hpo], ?_, ?_⟩
    · intro x hx hkx
      rw [← hpo]
      exact hstrict x hx (by rw [hkey]; exact hkx)
    · intro x hx hkx
      rw [← hpo]
      exact hle x hx (by rw [hkey]; exact hkx)
  · rw [latest_metrics]
    exact List.sorted_insertionSort keyLE _

/-- Two CPU-usage readings for the same core, at timestamps 5 and 7. -/
def demoMetricSamples : List MetricSample :=
  [⟨5, MetricKind.CpuUsage, "cpu0", some 10, some "%", []⟩,
   ⟨7, MetricKind.CpuUsage, "cpu0", some 20, some "%", []⟩]

/-- Witness for C9: on the demo metrics the newest CPU reading (timestamp
7) is in the output, it dominates every same-key input, its key survives
into the output, and the output is sorted by kind string then source. -/
theorem latest_metrics_spec_demo :
    (⟨7, MetricKind.CpuUsage, "cpu0", some 20, some "%", []⟩ : MetricSample) ∈
      latest_metrics demoMetricSamples
    ∧ (∀ x ∈ demoMetricSamples,
        keyOf x = keyOf (⟨7, MetricKind.CpuUsage, "cpu0", some 20, some "%", []⟩ :
          MetricSample) → x.ts ≤ 7)
    ∧ ((MetricKind.CpuUsage, "cpu0") ∈
          (latest_metrics demoMetricSamples).map keyOf ↔
        (MetricKind.CpuUsage, "cpu0") ∈ demoMetricSamples.map keyOf)
    ∧ List.Sorted keyLE (latest_metrics demoMetricSamples) := by
  have h := latest_metrics_spec demoMetricSamples
  have hmem : (⟨7, MetricKind.CpuUsage, "cpu0", some 20, some "%", []⟩ :
      MetricSample) ∈ latest_metrics demoMetricSamples := by decide
  rcases h.2.2.1 _ hmem with ⟨l₁, l₂, hsplit, hstrict, hle⟩
  exact ⟨hmem, hle, h.2.1 _, h.2.2.2⟩
